import Mathlib

/-!
Verification of the associative rewrite engine of the Tact expression
optimizer (`src/optimizer/associative.ts`).

The expression data model, the external constant evaluator and the AST
utility predicates live outside the file under study; they are modelled
from the specification (see the doc comments below).  Everything else —
the operator property tables, the allowed-operator gate, the three rules
`AssociativeRule1/2/3`, the four transform tables and the safety
conditions — is translated directly from the source.
-/

namespace Assoc

/-- Modelled from the spec (§3 data model): a semantic value is a fully
evaluated constant — an integer or a boolean.  (The `Value` type of
`types/types.ts` is not part of the file under study.) -/
inductive Value where
  | vInt (n : Int)
  | vBool (b : Bool)
deriving DecidableEq, BEq

/-- The fixed finite operator alphabet (`AstBinaryOperation`), modelled from
the spec (§3): `+ - * / % << >> & | ^ && || == != < <= > >=`. -/
inductive BinOpKind where
  | add | sub | mul | div | mod
  | shl | shr | band | bor | bxor
  | andB | orB | eq | neq
  | lt | le | gt | ge
deriving DecidableEq, BEq

/-- Modelled from the spec (§3): an expression is a literal, a binary
operation, or an unknown operand (a sub-expression whose value cannot be
determined at optimization time, modelled as a named variable). -/
inductive Expr where
  | var (name : String)
  | lit (v : Value)
  | binOp (op : BinOpKind) (l r : Expr)
deriving DecidableEq, BEq

/-- Largest representable integer: the domain language uses fixed-width
checked-overflow integers (spec §1); the width is instantiated with the
257-bit signed range of the compiled language, so `maxInt = 2^256 - 1`. -/
def maxInt : Int := 115792089237316195423570985008687907853269984665640564039457584007913129639935

/-- Smallest representable integer, `minInt = -2^256`. -/
def minInt : Int := -115792089237316195423570985008687907853269984665640564039457584007913129639936

/-- The checked-overflow range. -/
def inRange (n : Int) : Prop := minInt ≤ n ∧ n ≤ maxInt

instance (n : Int) : Decidable (inRange n) :=
  inferInstanceAs (Decidable (_ ∧ _))

/-- Result of an integer operation under checked-overflow semantics:
out-of-range results fail (trap). -/
def intResult (n : Int) : Option Value :=
  if inRange n then some (.vInt n) else none

/-- Modelled from the spec (§6 external interfaces): the external constant
evaluator `evaluateBinaryOperation` (`evalBinaryOp` of `constEval.ts`,
not part of the file under study).  It fails (`none`) when the
operator/operand combination is invalid — wrong types, division by zero,
out-of-range fold.  Arithmetic results are range-checked
(checked-overflow).  Bitwise integer operators are left failing: the spec
leaves them unspecified (marked TODO in the engine's tables) and no rule
ever reaches them. -/
def evalBinaryOp (op : BinOpKind) (a b : Value) : Option Value :=
  match op, a, b with
  | .add, .vInt m, .vInt n => intResult (m + n)
  | .sub, .vInt m, .vInt n => intResult (m - n)
  | .mul, .vInt m, .vInt n => intResult (m * n)
  | .div, .vInt m, .vInt n => if n = 0 then none else intResult (Int.fdiv m n)
  | .mod, .vInt m, .vInt n => if n = 0 then none else intResult (Int.fmod m n)
  | .shl, .vInt m, .vInt n =>
    if 0 ≤ n ∧ n ≤ 256 then intResult (m * 2 ^ n.toNat) else none
  | .shr, .vInt m, .vInt n =>
    if 0 ≤ n ∧ n ≤ 256 then intResult (Int.fdiv m (2 ^ n.toNat)) else none
  | .andB, .vBool x, .vBool y => some (.vBool (x && y))
  | .orB, .vBool x, .vBool y => some (.vBool (x || y))
  | .eq, .vInt m, .vInt n => some (.vBool (decide (m = n)))
  | .eq, .vBool x, .vBool y => some (.vBool (x == y))
  | .neq, .vInt m, .vInt n => some (.vBool (decide (m ≠ n)))
  | .neq, .vBool x, .vBool y => some (.vBool (!(x == y)))
  | .lt, .vInt m, .vInt n => some (.vBool (decide (m < n)))
  | .le, .vInt m, .vInt n => some (.vBool (decide (m ≤ n)))
  | .gt, .vInt m, .vInt n => some (.vBool (decide (n < m)))
  | .ge, .vInt m, .vInt n => some (.vBool (decide (n ≤ m)))
  | _, _, _ => none

/-- Modelled from the spec (§1, §8): evaluation of an expression tree under
an environment binding its free variables, with checked-overflow integer
semantics; `none` is a trap. -/
def eval (env : String → Value) : Expr → Option Value
  | .var s => some (env s)
  | .lit v => some v
  | .binOp op l r =>
    (eval env l).bind fun a => (eval env r).bind fun b => evalBinaryOp op a b

/-- A value of the domain language: integers are within the fixed-width
range. -/
def validVal : Value → Prop
  | .vInt n => inRange n
  | .vBool _ => True

instance (v : Value) : Decidable (validVal v) :=
  match v with
  | .vInt n => inferInstanceAs (Decidable (inRange n))
  | .vBool _ => inferInstanceAs (Decidable True)

/-- Modelled from the spec (§6 node shape predicates): is the node a
literal. -/
def isValue : Expr → Bool
  | .lit _ => true
  | _ => false

/-- Modelled from the spec (§6): is the node a binary operation. -/
def checkIsBinaryOpNode : Expr → Bool
  | .binOp .. => true
  | _ => false

/-- Modelled from the spec (§6): is the node a binary operation with a
non-literal on the left and a literal on the right. -/
def checkIsBinaryOp_NonValue_Value : Expr → Bool
  | .binOp _ l r => !isValue l && isValue r
  | _ => false

/-- Modelled from the spec (§6): is the node a binary operation with a
literal on the left and a non-literal on the right. -/
def checkIsBinaryOp_Value_NonValue : Expr → Bool
  | .binOp _ l r => isValue l && !isValue r
  | _ => false

/-- Modelled from the spec (§6): extract the value of a literal node (the
rules only call it under shape guards; the default mirrors the source's
unchecked cast). -/
def extractValue : Expr → Value
  | .lit v => v
  | _ => .vInt 0

/-- Modelled from the spec (§6): build a binary operation node. -/
def makeBinaryExpression (op : BinOpKind) (l r : Expr) : Expr := .binOp op l r

/-- Modelled from the spec (§6): build a literal node. -/
def makeValueExpression (v : Value) : Expr := .lit v

/-- Operator of a binary node (mirrors the source's unchecked
`as AstOpBinary` cast, used only under shape guards). -/
def Expr.bop : Expr → BinOpKind
  | .binOp o _ _ => o
  | _ => .add

/-- Left child of a binary node (unchecked cast, as in the source). -/
def Expr.bleft : Expr → Expr
  | .binOp _ l _ => l
  | e => e

/-- Right child of a binary node (unchecked cast, as in the source). -/
def Expr.bright : Expr → Expr
  | .binOp _ _ r => r
  | e => e

/-- Modelled from the spec: `sign` of `optimizer/util.ts` (not part of the
file under study), the standard integer sign. -/
def sign (n : Int) : Int :=
  if 0 < n then 1 else if n < 0 then -1 else 0

/-- Modelled from the spec: `abs` of `optimizer/util.ts`, the standard
absolute value. -/
def abs (n : Int) : Int :=
  if n < 0 then -n else n

/-- Number of nodes of an expression tree. -/
def nodeCount : Expr → Nat
  | .var _ => 1
  | .lit _ => 1
  | .binOp _ l r => 1 + nodeCount l + nodeCount r

/-! ## Operator property tables (`AssociativeRewriteRule`) -/

/-- `associativeOps` of `AssociativeRewriteRule`: an entry `(op, S)` means
`op` associates on the right with every operator in `S`. -/
def associativeOps : List (BinOpKind × List BinOpKind) :=
  [(.add, [.add, .sub]), (.mul, [.mul, .shl])]

/-- `commutativeOps` of `AssociativeRewriteRule`. -/
def commutativeOps : List BinOpKind :=
  [.add, .mul, .neq, .eq, .andB, .orB]

/-- `AssociativeRewriteRule.areAssociative`. -/
def areAssociative (op1 op2 : BinOpKind) : Bool :=
  match associativeOps.lookup op1 with
  | some rightOperators => rightOperators.contains op2
  | none => false

/-- `AssociativeRewriteRule.isCommutative`. -/
def isCommutative (op : BinOpKind) : Bool :=
  commutativeOps.contains op

/-! ## Allowed-operator gate (`AllowableOpRule`) -/

/-- `allowedOps` of `AllowableOpRule`: operators safe to reassociate with
completely unknown operands. -/
def allowedOps : List BinOpKind := [.andB, .orB]

/-- `AllowableOpRule.isAllowedOp`. -/
def isAllowedOp (op : BinOpKind) : Bool :=
  allowedOps.contains op

/-- `AllowableOpRule.areAllowedOps` (a fold of conjunctions, as in the
source). -/
def areAllowedOps (op : List BinOpKind) : Bool :=
  op.foldl (fun prev curr => prev && isAllowedOp curr) true

/-! ## AssociativeRule1 -/

/-- The single rewrite attempt of `AssociativeRule1.applyRule`: if a branch
fires it yields the tree passed to `optimizer.applyRules` together with
the context that rebuilds the final result from the optimizer's answer;
`none` means no shape matched, a precondition failed, or the constant
fold raised (the caught evaluation failure). -/
def rule1Step (ast : Expr) : Option (Expr × (Expr → Expr)) :=
  if checkIsBinaryOpNode ast then
    if checkIsBinaryOp_NonValue_Value ast.bleft && checkIsBinaryOp_NonValue_Value ast.bright then
      -- (x1 op1 c1) op (x2 op2 c2)
      if areAllowedOps [ast.bleft.bop, ast.bop, ast.bright.bop] &&
          areAssociative ast.bleft.bop ast.bop &&
          areAssociative ast.bop ast.bright.bop && isCommutative ast.bop then
        match evalBinaryOp ast.bright.bop (extractValue ast.bleft.bright)
            (extractValue ast.bright.bright) with
        | some val =>
          some (makeBinaryExpression ast.bleft.bop ast.bleft.bleft ast.bright.bleft,
            fun newLeft => makeBinaryExpression ast.bop newLeft (makeValueExpression val))
        | none => none
      else none
    else if checkIsBinaryOp_NonValue_Value ast.bleft && checkIsBinaryOp_Value_NonValue ast.bright then
      -- (x1 op1 c1) op (c2 op2 x2)
      if areAllowedOps [ast.bleft.bop, ast.bop, ast.bright.bop] &&
          areAssociative ast.bleft.bop ast.bop &&
          areAssociative ast.bop ast.bright.bop then
        match evalBinaryOp ast.bop (extractValue ast.bleft.bright)
            (extractValue ast.bright.bleft) with
        | some val =>
          some (makeBinaryExpression ast.bleft.bop ast.bleft.bleft (makeValueExpression val),
            fun newLeft => makeBinaryExpression ast.bright.bop newLeft ast.bright.bright)
        | none => none
      else none
    else if checkIsBinaryOp_Value_NonValue ast.bleft && checkIsBinaryOp_NonValue_Value ast.bright then
      -- (c1 op1 x1) op (x2 op2 c2)
      if areAllowedOps [ast.bleft.bop, ast.bop, ast.bright.bop] &&
          areAssociative ast.bop ast.bleft.bop &&
          areAssociative ast.bright.bop ast.bop && isCommutative ast.bop then
        match evalBinaryOp ast.bop (extractValue ast.bright.bright)
            (extractValue ast.bleft.bleft) with
        | some val =>
          some (makeBinaryExpression ast.bright.bop ast.bright.bleft (makeValueExpression val),
            fun newLeft => makeBinaryExpression ast.bleft.bop newLeft ast.bleft.bright)
        | none => none
      else none
    else if checkIsBinaryOp_Value_NonValue ast.bleft && checkIsBinaryOp_Value_NonValue ast.bright then
      -- (c1 op1 x1) op (c2 op2 x2)
      if areAllowedOps [ast.bleft.bop, ast.bop, ast.bright.bop] &&
          areAssociative ast.bleft.bop ast.bop &&
          areAssociative ast.bop ast.bright.bop && isCommutative ast.bop then
        match evalBinaryOp ast.bleft.bop (extractValue ast.bleft.bleft)
            (extractValue ast.bright.bleft) with
        | some val =>
          some (makeBinaryExpression ast.bright.bop ast.bleft.bright ast.bright.bright,
            fun newRight => makeBinaryExpression ast.bop (makeValueExpression val) newRight)
        | none => none
      else none
    else none
  else none

/-- `AssociativeRule1.applyRule`: apply the rewrite attempt, feeding the
newly joined sub-tree through the surrounding optimizer; on failure the
original tree is returned unchanged. -/
def applyRule1 (optimizer : Expr → Expr) (ast : Expr) : Expr :=
  match rule1Step ast with
  | some (arg, rebuild) => rebuild (optimizer arg)
  | none => ast

/-! ## AssociativeRule2 -/

/-- The single rewrite attempt of `AssociativeRule2.applyRule` (same
convention as `rule1Step`; this rule performs no constant fold). -/
def rule2Step (ast : Expr) : Option (Expr × (Expr → Expr)) :=
  if checkIsBinaryOpNode ast then
    if checkIsBinaryOp_NonValue_Value ast.bleft && !isValue ast.bright then
      -- (x1 op1 c1) op x2
      if areAllowedOps [ast.bleft.bop, ast.bop] &&
          areAssociative ast.bleft.bop ast.bop && isCommutative ast.bop then
        some (makeBinaryExpression ast.bleft.bop ast.bleft.bleft ast.bright,
          fun newLeft => makeBinaryExpression ast.bop newLeft ast.bleft.bright)
      else none
    else if checkIsBinaryOp_Value_NonValue ast.bleft && !isValue ast.bright then
      -- (c1 op1 x1) op x2
      if areAllowedOps [ast.bleft.bop, ast.bop] &&
          areAssociative ast.bleft.bop ast.bop then
        some (makeBinaryExpression ast.bop ast.bleft.bright ast.bright,
          fun newRight => makeBinaryExpression ast.bleft.bop ast.bleft.bleft newRight)
      else none
    else if !isValue ast.bleft && checkIsBinaryOp_NonValue_Value ast.bright then
      -- x2 op (x1 op1 c1)
      if areAllowedOps [ast.bop, ast.bright.bop] &&
          areAssociative ast.bop ast.bright.bop then
        some (makeBinaryExpression ast.bop ast.bleft ast.bright.bleft,
          fun newLeft => makeBinaryExpression ast.bright.bop newLeft ast.bright.bright)
      else none
    else if !isValue ast.bleft && checkIsBinaryOp_Value_NonValue ast.bright then
      -- x2 op (c1 op1 x1)
      if areAllowedOps [ast.bop, ast.bright.bop] &&
          areAssociative ast.bop ast.bright.bop && isCommutative ast.bop then
        some (makeBinaryExpression ast.bright.bop ast.bleft ast.bright.bright,
          fun newRight => makeBinaryExpression ast.bop ast.bright.bleft newRight)
      else none
    else none
  else none

/-- `AssociativeRule2.applyRule`. -/
def applyRule2 (optimizer : Expr → Expr) (ast : Expr) : Expr :=
  match rule2Step ast with
  | some (arg, rebuild) => rebuild (optimizer arg)
  | none => ast

/-! ## AssociativeRule3 -/

/-- `ensureInt`: extraction of an integer constant; fails (throws, in the
source) on any other kind of value. -/
def ensureInt : Value → Option Int
  | .vInt n => some n
  | _ => none

/-- `transformationData`: the new operator and folded value produced by a
transform table entry. -/
structure TData where
  op1_ : BinOpKind
  val_ : Value

/-- A transform table cell: the fold (which may fail, as the external
evaluator throws) and its safety predicate (which may fail via
`ensureInt`). -/
structure Transform where
  transform : Value → Value → Option TData
  safetyCondition : Value → Value → Option Bool

/-- `AssociativeRule3.standardAdditiveCondition`:
`c1 ≠ 0 → sign c1 = sign val_ ∧ abs c1 ≤ abs val_`. -/
def standardAdditiveCondition (c1 val_ : Int) : Bool :=
  if c1 = 0 then true
  else decide (sign c1 = sign val_) && decide (abs c1 ≤ abs val_)

/-- `AssociativeRule3.standardAdditiveWithZeroCondition`: as above, but for
`c1 = 0` the folded value must be non-negative. -/
def standardAdditiveWithZeroCondition (c1 val_ : Int) : Bool :=
  if c1 = 0 then decide (0 ≤ val_)
  else decide (sign c1 = sign val_) && decide (abs c1 ≤ abs val_)

/-- `AssociativeRule3.standardMultiplicativeCondition`. -/
def standardMultiplicativeCondition (c1 val_ : Int) : Bool :=
  if c1 = 0 then true
  else if val_ = 0 then false
  else if sign c1 = sign val_ then decide (abs c1 ≤ abs val_)
  else decide (abs c1 < abs val_)

/-- The safety-condition wrapper that every table cell uses: extract both
integers with `ensureInt`, then test the given condition. -/
def intSafety (cond : Int → Int → Bool) : Value → Value → Option Bool :=
  fun c1 val_ =>
    match ensureInt c1 with
    | none => none
    | some n1 =>
      match ensureInt val_ with
      | none => none
      | some res => some (cond n1 res)

/-- `plusLeftAssocOperators`: transforms for `(x1 + c1) op c2`. -/
def plusLeftAssocOperators : List (BinOpKind × Transform) :=
  [(.add, ⟨fun c1 c2 => (evalBinaryOp .add c1 c2).map (fun res => ⟨.add, res⟩),
           intSafety standardAdditiveCondition⟩),
   (.sub, ⟨fun c1 c2 => (evalBinaryOp .sub c1 c2).map (fun res => ⟨.add, res⟩),
           intSafety standardAdditiveCondition⟩)]

/-- `minusLeftAssocOperators`: transforms for `(x1 - c1) op c2`. -/
def minusLeftAssocOperators : List (BinOpKind × Transform) :=
  [(.add, ⟨fun c1 c2 => (evalBinaryOp .sub c1 c2).map (fun res => ⟨.sub, res⟩),
           intSafety standardAdditiveCondition⟩),
   (.sub, ⟨fun c1 c2 => (evalBinaryOp .add c1 c2).map (fun res => ⟨.sub, res⟩),
           intSafety standardAdditiveCondition⟩)]

/-- `multiplyLeftAssocOperators`: transforms for `(x1 * c1) op c2`. -/
def multiplyLeftAssocOperators : List (BinOpKind × Transform) :=
  [(.mul, ⟨fun c1 c2 => (evalBinaryOp .mul c1 c2).map (fun res => ⟨.mul, res⟩),
           intSafety standardMultiplicativeCondition⟩)]

/-- `leftAssocTransforms`, keyed by `op1` then `op`. -/
def leftAssocTransforms : List (BinOpKind × List (BinOpKind × Transform)) :=
  [(.add, plusLeftAssocOperators),
   (.sub, minusLeftAssocOperators),
   (.mul, multiplyLeftAssocOperators)]

/-- `plusRightAssocOperators`: transforms for `c2 + (c1 op1 x1)`. -/
def plusRightAssocOperators : List (BinOpKind × Transform) :=
  [(.add, ⟨fun c1 c2 => (evalBinaryOp .add c2 c1).map (fun res => ⟨.add, res⟩),
           intSafety standardAdditiveCondition⟩),
   (.sub, ⟨fun c1 c2 => (evalBinaryOp .add c2 c1).map (fun res => ⟨.sub, res⟩),
           intSafety standardAdditiveWithZeroCondition⟩)]

/-- `multiplyRightAssocOperators`: transforms for `c2 * (c1 op1 x1)`.
(`c2 - (c1 op1 x1)` has deliberately no entries.) -/
def multiplyRightAssocOperators : List (BinOpKind × Transform) :=
  [(.mul, ⟨fun c1 c2 => (evalBinaryOp .mul c2 c1).map (fun res => ⟨.mul, res⟩),
           intSafety standardMultiplicativeCondition⟩)]

/-- `rightAssocTransforms`, keyed by `op` then `op1`. -/
def rightAssocTransforms : List (BinOpKind × List (BinOpKind × Transform)) :=
  [(.add, plusRightAssocOperators),
   (.mul, multiplyRightAssocOperators)]

/-- `plusRightCommuteOperators`: transforms for `c2 + (x1 op1 c1)`. -/
def plusRightCommuteOperators : List (BinOpKind × Transform) :=
  [(.add, ⟨fun c1 c2 => (evalBinaryOp .add c2 c1).map (fun res => ⟨.add, res⟩),
           intSafety standardAdditiveCondition⟩),
   (.sub, ⟨fun c1 c2 => (evalBinaryOp .sub c1 c2).map (fun res => ⟨.sub, res⟩),
           intSafety standardAdditiveCondition⟩)]

/-- `multiplyRightCommuteOperators`: transforms for `c2 * (x1 op1 c1)`.
(`c2 - (x1 op1 c1)` has deliberately no entries.) -/
def multiplyRightCommuteOperators : List (BinOpKind × Transform) :=
  [(.mul, ⟨fun c1 c2 => (evalBinaryOp .mul c2 c1).map (fun res => ⟨.mul, res⟩),
           intSafety standardMultiplicativeCondition⟩)]

/-- `rightCommuteTransforms`, keyed by `op` then `op1`. -/
def rightCommuteTransforms : List (BinOpKind × List (BinOpKind × Transform)) :=
  [(.add, plusRightCommuteOperators),
   (.mul, multiplyRightCommuteOperators)]

/-- `plusLeftCommuteOperators`: transforms for `(c1 + x1) op c2`. -/
def plusLeftCommuteOperators : List (BinOpKind × Transform) :=
  [(.add, ⟨fun c1 c2 => (evalBinaryOp .add c1 c2).map (fun res => ⟨.add, res⟩),
           intSafety standardAdditiveCondition⟩),
   (.sub, ⟨fun c1 c2 => (evalBinaryOp .sub c1 c2).map (fun res => ⟨.add, res⟩),
           intSafety standardAdditiveCondition⟩)]

/-- `minusLeftCommuteOperators`: transforms for `(c1 - x1) op c2`. -/
def minusLeftCommuteOperators : List (BinOpKind × Transform) :=
  [(.add, ⟨fun c1 c2 => (evalBinaryOp .add c1 c2).map (fun res => ⟨.sub, res⟩),
           intSafety standardAdditiveWithZeroCondition⟩),
   (.sub, ⟨fun c1 c2 => (evalBinaryOp .sub c1 c2).map (fun res => ⟨.sub, res⟩),
           intSafety standardAdditiveWithZeroCondition⟩)]

/-- `multiplyLeftCommuteOperators`: transforms for `(c1 * x1) op c2`. -/
def multiplyLeftCommuteOperators : List (BinOpKind × Transform) :=
  [(.mul, ⟨fun c1 c2 => (evalBinaryOp .mul c1 c2).map (fun res => ⟨.mul, res⟩),
           intSafety standardMultiplicativeCondition⟩)]

/-- `leftCommuteTransforms`, keyed by `op1` then `op`. -/
def leftCommuteTransforms : List (BinOpKind × List (BinOpKind × Transform)) :=
  [(.add, plusLeftCommuteOperators),
   (.sub, minusLeftCommuteOperators),
   (.mul, multiplyLeftCommuteOperators)]

/-- `AssociativeRule3.lookupTransform`. -/
def lookupTransform (keyOp1 keyOp2 : BinOpKind)
    (transforms : List (BinOpKind × List (BinOpKind × Transform))) :
    Option Transform :=
  match transforms.lookup keyOp1 with
  | some intermediateMap => intermediateMap.lookup keyOp2
  | none => none

/-- `AssociativeRule3.getLeftAssociativityTransform`. -/
def getLeftAssociativityTransform (keyOp1 keyOp2 : BinOpKind) : Option Transform :=
  lookupTransform keyOp1 keyOp2 leftAssocTransforms

/-- `AssociativeRule3.getRightAssociativityTransform`. -/
def getRightAssociativityTransform (keyOp1 keyOp2 : BinOpKind) : Option Transform :=
  lookupTransform keyOp1 keyOp2 rightAssocTransforms

/-- `AssociativeRule3.getLeftCommutativityTransform`. -/
def getLeftCommutativityTransform (keyOp1 keyOp2 : BinOpKind) : Option Transform :=
  lookupTransform keyOp1 keyOp2 leftCommuteTransforms

/-- `AssociativeRule3.getRightCommutativityTransform`. -/
def getRightCommutativityTransform (keyOp1 keyOp2 : BinOpKind) : Option Transform :=
  lookupTransform keyOp1 keyOp2 rightCommuteTransforms

/-- Outcome of the rewrite attempt of one `AssociativeRule3.applyRule`
invocation. -/
inductive Rule3Outcome where
  /-- No shape matched. -/
  | noMatch
  /-- A shape matched but an exception was caught: missing table entry,
  evaluation failure of the fold, or extraction failure in the safety
  condition. -/
  | evalFail
  /-- A shape matched, the fold succeeded, but the safety condition
  evaluated to `false`. -/
  | rejected
  /-- The rewrite succeeded; `t` is the simpler tree handed to the
  surrounding optimizer. -/
  | rewritten (t : Expr)
deriving DecidableEq

/-- The body of one `try { ... } catch` block of
`AssociativeRule3.applyRule`: look up the transform (a missing entry
throws on the `undefined` dereference in the source), compute the fold,
check the safety condition, and build the rewritten tree. -/
def rule3TryBranch (tOpt : Option Transform) (c1 c2 : Value)
    (mk : BinOpKind → Value → Expr) : Rule3Outcome :=
  match tOpt with
  | none => .evalFail
  | some tr =>
    match tr.transform c1 c2 with
    | none => .evalFail
    | some data =>
      match tr.safetyCondition c1 data.val_ with
      | none => .evalFail
      | some true => .rewritten (mk data.op1_ data.val_)
      | some false => .rejected

/-- The rewrite attempt of `AssociativeRule3.applyRule`: classify the
shape of the node among the four one-constant-per-side topologies and
run the matching `try` block. -/
def rule3Attempt (ast : Expr) : Rule3Outcome :=
  if checkIsBinaryOpNode ast then
    if checkIsBinaryOp_NonValue_Value ast.bleft && isValue ast.bright then
      -- (x1 op1 c1) op c2  ~~>  x1 op1_ val_
      rule3TryBranch (getLeftAssociativityTransform ast.bleft.bop ast.bop)
        (extractValue ast.bleft.bright) (extractValue ast.bright)
        (fun op1_ val_ =>
          makeBinaryExpression op1_ ast.bleft.bleft (makeValueExpression val_))
    else if checkIsBinaryOp_Value_NonValue ast.bleft && isValue ast.bright then
      -- (c1 op1 x1) op c2  ~~>  val_ op1_ x1
      rule3TryBranch (getLeftCommutativityTransform ast.bleft.bop ast.bop)
        (extractValue ast.bleft.bleft) (extractValue ast.bright)
        (fun op1_ val_ =>
          makeBinaryExpression op1_ (makeValueExpression val_) ast.bleft.bright)
    else if isValue ast.bleft && checkIsBinaryOp_NonValue_Value ast.bright then
      -- c2 op (x1 op1 c1)  ~~>  x1 op1_ val_
      rule3TryBranch (getRightCommutativityTransform ast.bop ast.bright.bop)
        (extractValue ast.bright.bright) (extractValue ast.bleft)
        (fun op1_ val_ =>
          makeBinaryExpression op1_ ast.bright.bleft (makeValueExpression val_))
    else if isValue ast.bleft && checkIsBinaryOp_Value_NonValue ast.bright then
      -- c2 op (c1 op1 x1)  ~~>  val_ op1_ x1
      rule3TryBranch (getRightAssociativityTransform ast.bop ast.bright.bop)
        (extractValue ast.bright.bleft) (extractValue ast.bleft)
        (fun op1_ val_ =>
          makeBinaryExpression op1_ (makeValueExpression val_) ast.bright.bright)
    else .noMatch
  else .noMatch

/-- `AssociativeRule3.applyRule`: on a successful attempt the simpler tree
is re-optimized by the surrounding optimizer and returned; otherwise the
original tree is returned untouched (no exception crosses the rule
boundary — the attempt is total). -/
def applyRule3 (optimizer : Expr → Expr) (ast : Expr) : Expr :=
  match rule3Attempt ast with
  | .rewritten t => optimizer t
  | _ => ast

/-! ## Structural helper lemmas -/

@[simp] lemma isValue_lit (v : Value) : isValue (.lit v) = true := rfl

@[simp] lemma isValue_var (s : String) : isValue (.var s) = false := rfl

@[simp] lemma isValue_binOp (o : BinOpKind) (a b : Expr) :
    isValue (.binOp o a b) = false := rfl

@[simp] lemma checkIsBinaryOpNode_binOp (o : BinOpKind) (a b : Expr) :
    checkIsBinaryOpNode (.binOp o a b) = true := rfl

@[simp] lemma checkNVV_binOp (o : BinOpKind) (a b : Expr) :
    checkIsBinaryOp_NonValue_Value (.binOp o a b) = (!isValue a && isValue b) := rfl

@[simp] lemma checkVNV_binOp (o : BinOpKind) (a b : Expr) :
    checkIsBinaryOp_Value_NonValue (.binOp o a b) = (isValue a && !isValue b) := rfl

@[simp] lemma bop_binOp (o : BinOpKind) (a b : Expr) :
    (Expr.binOp o a b).bop = o := rfl

@[simp] lemma bleft_binOp (o : BinOpKind) (a b : Expr) :
    (Expr.binOp o a b).bleft = a := rfl

@[simp] lemma bright_binOp (o : BinOpKind) (a b : Expr) :
    (Expr.binOp o a b).bright = b := rfl

@[simp] lemma extractValue_lit (v : Value) : extractValue (.lit v) = v := rfl

lemma nvv_struct (e : Expr) (h : checkIsBinaryOp_NonValue_Value e = true) :
    ∃ o a v, e = .binOp o a (.lit v) ∧ isValue a = false := by
  cases e with
  | binOp o a b =>
    cases b with
    | lit v =>
      refine ⟨o, a, v, rfl, ?_⟩
      exact (by simpa [checkIsBinaryOp_NonValue_Value] using h :
        isValue a = false ∧ isValue (Expr.lit v) = true).1
    | var _ => simp [checkIsBinaryOp_NonValue_Value, isValue] at h
    | binOp _ _ _ => simp [checkIsBinaryOp_NonValue_Value, isValue] at h
  | var _ => simp [checkIsBinaryOp_NonValue_Value] at h
  | lit _ => simp [checkIsBinaryOp_NonValue_Value] at h

lemma vnv_struct (e : Expr) (h : checkIsBinaryOp_Value_NonValue e = true) :
    ∃ o v a, e = .binOp o (.lit v) a ∧ isValue a = false := by
  cases e with
  | binOp o a b =>
    cases a with
    | lit v =>
      refine ⟨o, v, b, rfl, ?_⟩
      exact (by simpa [checkIsBinaryOp_Value_NonValue] using h :
        isValue (Expr.lit v) = true ∧ isValue b = false).2
    | var _ => simp [checkIsBinaryOp_Value_NonValue, isValue] at h
    | binOp _ _ _ => simp [checkIsBinaryOp_Value_NonValue, isValue] at h
  | var _ => simp [checkIsBinaryOp_Value_NonValue] at h
  | lit _ => simp [checkIsBinaryOp_Value_NonValue] at h

lemma isValue_struct (e : Expr) (h : isValue e = true) : ∃ v, e = .lit v := by
  cases e with
  | lit v => exact ⟨v, rfl⟩
  | var _ => simp [isValue] at h
  | binOp _ _ _ => simp [isValue] at h

/-! ## Dormancy of the unknown-operand rules -/

lemma areAllowedOps_all (l : List BinOpKind) (h : areAllowedOps l = true) :
    ∀ a ∈ l, isAllowedOp a = true := by
  have key : ∀ (l : List BinOpKind) (acc : Bool),
      l.foldl (fun prev curr => prev && isAllowedOp curr) acc = true →
      acc = true ∧ ∀ a ∈ l, isAllowedOp a = true := by
    intro l
    induction l with
    | nil => intro acc h; exact ⟨h, by simp⟩
    | cons c cs ih =>
      intro acc h
      have h' := ih (acc && isAllowedOp c) h
      rcases h' with ⟨hacc, hall⟩
      have hacc' : acc = true ∧ isAllowedOp c = true := by
        revert hacc
        cases acc <;> cases hc : isAllowedOp c <;> simp_all
      rcases hacc' with ⟨h1, h2⟩
      exact ⟨h1, by
        intro a ha
        rcases List.mem_cons.mp ha with rfl | ha
        · exact h2
        · exact hall a ha⟩
  exact (key l true h).2

lemma allowed_not_associative (a b : BinOpKind) (h : isAllowedOp a = true) :
    areAssociative a b = false := by
  have : a = .andB ∨ a = .orB := by
    revert h; cases a <;> decide
  rcases this with rfl | rfl <;> rfl

lemma rule1Step_eq_none (ast : Expr) : rule1Step ast = none := by
  unfold rule1Step
  split
  case isFalse => rfl
  case isTrue =>
    split
    case isTrue h1 =>
      cases hA : areAllowedOps [ast.bleft.bop, ast.bop, ast.bright.bop]
      · simp [hA]
      · have h := areAllowedOps_all _ hA ast.bleft.bop (by simp)
        simp [allowed_not_associative _ _ h]
    case isFalse =>
      split
      case isTrue h1 =>
        cases hA : areAllowedOps [ast.bleft.bop, ast.bop, ast.bright.bop]
        · simp [hA]
        · have h := areAllowedOps_all _ hA ast.bleft.bop (by simp)
          simp [allowed_not_associative _ _ h]
      case isFalse =>
        split
        case isTrue h1 =>
          cases hA : areAllowedOps [ast.bleft.bop, ast.bop, ast.bright.bop]
          · simp [hA]
          · have h := areAllowedOps_all _ hA ast.bop (by simp)
            simp [allowed_not_associative _ _ h]
        case isFalse =>
          split
          case isTrue h1 =>
            cases hA : areAllowedOps [ast.bleft.bop, ast.bop, ast.bright.bop]
            · simp [hA]
            · have h := areAllowedOps_all _ hA ast.bleft.bop (by simp)
              simp [allowed_not_associative _ _ h]
          case isFalse => rfl

lemma rule2Step_eq_none (ast : Expr) : rule2Step ast = none := by
  unfold rule2Step
  split
  case isFalse => rfl
  case isTrue =>
    split
    case isTrue h1 =>
      cases hA : areAllowedOps [ast.bleft.bop, ast.bop]
      · simp [hA]
      · have h := areAllowedOps_all _ hA ast.bleft.bop (by simp)
        simp [allowed_not_associative _ _ h]
    case isFalse =>
      split
      case isTrue h1 =>
        cases hA : areAllowedOps [ast.bleft.bop, ast.bop]
        · simp [hA]
        · have h := areAllowedOps_all _ hA ast.bleft.bop (by simp)
          simp [allowed_not_associative _ _ h]
      case isFalse =>
        split
        case isTrue h1 =>
          cases hA : areAllowedOps [ast.bop, ast.bright.bop]
          · simp [hA]
          · have h := areAllowedOps_all _ hA ast.bop (by simp)
            simp [allowed_not_associative _ _ h]
        case isFalse =>
          split
          case isTrue h1 =>
            cases hA : areAllowedOps [ast.bop, ast.bright.bop]
            · simp [hA]
            · have h := areAllowedOps_all _ hA ast.bop (by simp)
              simp [allowed_not_associative _ _ h]
          case isFalse => rfl

/-- Claim C2: for every input expression and every optimizer callback,
`AssociativeRule1.applyRule` and `AssociativeRule2.applyRule` return the
input unchanged: their allowed-operator set is `{&&, ||}` but the
associativity table only has entries for `+` and `*`, so the
`areAssociative` precondition of every rewrite branch is false and both
rules are dormant. -/
theorem rule1_rule2_dormant (f : Expr → Expr) (ast : Expr) :
    applyRule1 f ast = ast ∧ applyRule2 f ast = ast := by
  constructor
  · unfold applyRule1; rw [rule1Step_eq_none]
  · unfold applyRule2; rw [rule2Step_eq_none]

/-! ## Concrete scenarios of AssociativeRule3 -/

/-- Claim C3, counterexample: on the input `(x + 0) - 3` the rule does NOT
return the tree unchanged (it rewrites it to `x + (-3)`): the matched
table entry uses the plain additive safety condition, which holds
trivially because the original constant is zero. -/
theorem rule3_zero_additive_cex :
    applyRule3 id
        (.binOp .sub (.binOp .add (.var "x") (.lit (.vInt 0))) (.lit (.vInt 3)))
      ≠ .binOp .sub (.binOp .add (.var "x") (.lit (.vInt 0))) (.lit (.vInt 3)) := by
  decide

/-- Claim C3, amended: for the input `(x + 0) - 3` with `x` a non-literal,
the `+`-row `-`-column left-associativity entry applies the plain
additive safety condition (not the with-zero variant); since the
original constant is `0` that condition holds, so the fold is accepted
and `applyRule` returns `optimizer.applyRules(x + (-3))` — with the
identity callback, `x + (-3)` — not the original tree.  (The with-zero
condition would indeed have rejected `-3`, but it is not the condition
this entry uses.) -/
theorem rule3_zero_additive_amended (f : Expr → Expr) :
    applyRule3 f
        (.binOp .sub (.binOp .add (.var "x") (.lit (.vInt 0))) (.lit (.vInt 3)))
      = f (.binOp .add (.var "x") (.lit (.vInt (-3)))) ∧
    standardAdditiveCondition 0 (-3) = true ∧
    standardAdditiveWithZeroCondition 0 (-3) = false := by
  refine ⟨?_, by decide, by decide⟩
  have h : rule3Attempt
      (.binOp .sub (.binOp .add (.var "x") (.lit (.vInt 0))) (.lit (.vInt 3)))
      = .rewritten (.binOp .add (.var "x") (.lit (.vInt (-3)))) := by decide
  unfold applyRule3
  rw [h]

/-- Claim C7: for the input `(x + 5) - 8` with `x` a non-literal,
`AssociativeRule3.applyRule` returns the original tree unchanged: the
candidate folded value `5 - 8 = -3` has the opposite sign from the
original constant `5`, so the additive safety predicate fails and the
fold is blocked. -/
theorem rule3_unsafe_additive_blocked (f : Expr → Expr) :
    applyRule3 f
        (.binOp .sub (.binOp .add (.var "x") (.lit (.vInt 5))) (.lit (.vInt 8)))
      = .binOp .sub (.binOp .add (.var "x") (.lit (.vInt 5))) (.lit (.vInt 8)) := by
  have h : rule3Attempt
      (.binOp .sub (.binOp .add (.var "x") (.lit (.vInt 5))) (.lit (.vInt 8)))
      = .rejected := by decide
  unfold applyRule3
  rw [h]

/-- Claim C8: for the input `(2 * x) * 3` with `x` a non-literal, and a
re-optimization callback that returns its argument unchanged,
`AssociativeRule3.applyRule` produces `6 * x`: the left-commute `*`/`*`
transform folds `2 * 3 = 6` and the multiplicative safety condition
holds (same sign, `|2| ≤ |6|`). -/
theorem rule3_safe_multiplicative_fold (f : Expr → Expr) (hf : ∀ t, f t = t) :
    applyRule3 f
        (.binOp .mul (.binOp .mul (.lit (.vInt 2)) (.var "x")) (.lit (.vInt 3)))
      = .binOp .mul (.lit (.vInt 6)) (.var "x") := by
  have h : rule3Attempt
      (.binOp .mul (.binOp .mul (.lit (.vInt 2)) (.var "x")) (.lit (.vInt 3)))
      = .rewritten (.binOp .mul (.lit (.vInt 6)) (.var "x")) := by decide
  unfold applyRule3
  rw [h]
  exact hf _

/-- Witness for C8: the hypothesis is satisfied by the identity callback. -/
theorem rule3_safe_multiplicative_fold_witness :
    applyRule3 id
        (.binOp .mul (.binOp .mul (.lit (.vInt 2)) (.var "x")) (.lit (.vInt 3)))
      = .binOp .mul (.lit (.vInt 6)) (.var "x") :=
  rule3_safe_multiplicative_fold id (fun _ => rfl)

/-! ## Success-path structure of AssociativeRule3 -/

lemma bon_struct (e : Expr) (h : checkIsBinaryOpNode e = true) :
    ∃ o a b, e = .binOp o a b := by
  cases e with
  | binOp o a b => exact ⟨o, a, b, rfl⟩
  | var _ => simp [checkIsBinaryOpNode] at h
  | lit _ => simp [checkIsBinaryOpNode] at h

lemma rule3TryBranch_rewritten {tOpt : Option Transform} {c1 c2 : Value}
    {mk : BinOpKind → Value → Expr} {t : Expr}
    (h : rule3TryBranch tOpt c1 c2 mk = .rewritten t) :
    ∃ o v, t = mk o v := by
  cases tOpt with
  | none => simp [rule3TryBranch] at h
  | some tr =>
    simp only [rule3TryBranch] at h
    split at h
    · simp at h
    · split at h
      · simp at h
      · exact ⟨_, _, ((Rule3Outcome.rewritten.injEq _ _).mp h).symm⟩
      · simp at h

lemma rule3Attempt_rewritten_cases (ast t : Expr)
    (h : rule3Attempt ast = .rewritten t) :
    ∃ op x v, (t = .binOp op x (.lit v) ∨ t = .binOp op (.lit v) x) ∧
      nodeCount t < nodeCount ast := by
  unfold rule3Attempt at h
  split at h
  case isFalse => simp at h
  case isTrue hbin =>
    obtain ⟨o, a, b, rfl⟩ := bon_struct _ hbin
    split at h
    case isTrue hsh =>
      simp only [Bool.and_eq_true] at hsh
      obtain ⟨o1, x1, v1, hleq, hx1⟩ := nvv_struct _ (by simpa [Expr.bleft] using hsh.1)
      obtain ⟨v2, hreq⟩ := isValue_struct _ (by simpa [Expr.bright] using hsh.2)
      obtain ⟨oo, vv, rfl⟩ := rule3TryBranch_rewritten h
      subst hleq hreq
      refine ⟨oo, x1, vv, Or.inl (by simp [makeBinaryExpression, makeValueExpression]), ?_⟩
      simp [makeBinaryExpression, makeValueExpression, nodeCount]
      try omega
    case isFalse =>
      split at h
      case isTrue hsh =>
        simp only [Bool.and_eq_true] at hsh
        obtain ⟨o1, v1, x1, hleq, hx1⟩ := vnv_struct _ (by simpa [Expr.bleft] using hsh.1)
        obtain ⟨v2, hreq⟩ := isValue_struct _ (by simpa [Expr.bright] using hsh.2)
        obtain ⟨oo, vv, rfl⟩ := rule3TryBranch_rewritten h
        subst hleq hreq
        refine ⟨oo, x1, vv, Or.inr (by simp [makeBinaryExpression, makeValueExpression]), ?_⟩
        simp [makeBinaryExpression, makeValueExpression, nodeCount]
        try omega
      case isFalse =>
        split at h
        case isTrue hsh =>
          simp only [Bool.and_eq_true] at hsh
          obtain ⟨v2, hleq⟩ := isValue_struct _ (by simpa [Expr.bleft] using hsh.1)
          obtain ⟨o1, x1, v1, hreq, hx1⟩ := nvv_struct _ (by simpa [Expr.bright] using hsh.2)
          obtain ⟨oo, vv, rfl⟩ := rule3TryBranch_rewritten h
          subst hleq hreq
          refine ⟨oo, x1, vv, Or.inl (by simp [makeBinaryExpression, makeValueExpression]), ?_⟩
          simp [makeBinaryExpression, makeValueExpression, nodeCount]
          try omega
        case isFalse =>
          split at h
          case isTrue hsh =>
            simp only [Bool.and_eq_true] at hsh
            obtain ⟨v2, hleq⟩ := isValue_struct _ (by simpa [Expr.bleft] using hsh.1)
            obtain ⟨o1, v1, x1, hreq, hx1⟩ := vnv_struct _ (by simpa [Expr.bright] using hsh.2)
            obtain ⟨oo, vv, rfl⟩ := rule3TryBranch_rewritten h
            subst hleq hreq
            refine ⟨oo, x1, vv, Or.inr (by simp [makeBinaryExpression, makeValueExpression]), ?_⟩
            simp [makeBinaryExpression, makeValueExpression, nodeCount]
            try omega
          case isFalse => simp at h

/-- Claim C4, counterexample: on `(x + 5) + 3` the safety condition holds and
the attempt succeeds with the folded tree `x + 8`, but `applyRule`'s result
is NOT that tree: the rule hands it to the surrounding optimizer's
`applyRules` callback, whose answer is returned (here a callback returning
the literal `999` makes the result `999`). -/
theorem rule3_success_shape_cex :
    rule3Attempt (.binOp .add (.binOp .add (.var "x") (.lit (.vInt 5))) (.lit (.vInt 3)))
      = .rewritten (.binOp .add (.var "x") (.lit (.vInt 8))) ∧
    applyRule3 (fun _ => .lit (.vInt 999))
        (.binOp .add (.binOp .add (.var "x") (.lit (.vInt 5))) (.lit (.vInt 3)))
      ≠ .binOp .add (.var "x") (.lit (.vInt 8)) := by
  exact ⟨by decide, by decide⟩

/-- Claim C4, amended: whenever `AssociativeRule3`'s safety condition holds
for a matched shape (the rewrite attempt succeeds with tree `t`),
`applyRule`'s result is `optimizer.applyRules(t)` where `t` is exactly
`newOperator(unknown, foldedLiteral)` (placement of the literal depending
on the shape) — i.e. the rule performs exactly one recursive
re-optimization call on success, passing that tree, rather than none. -/
theorem rule3_success_calls_optimizer (f : Expr → Expr) (ast t : Expr)
    (h : rule3Attempt ast = .rewritten t) :
    applyRule3 f ast = f t ∧
    ∃ op x v, t = .binOp op x (.lit v) ∨ t = .binOp op (.lit v) x := by
  constructor
  · unfold applyRule3; rw [h]
  · obtain ⟨op, x, v, hshape, _⟩ := rule3Attempt_rewritten_cases ast t h
    exact ⟨op, x, v, hshape⟩

/-- Witness for the amended C4, at `(x + 5) + 3` with the identity callback. -/
theorem rule3_success_calls_optimizer_witness :
    applyRule3 id (.binOp .add (.binOp .add (.var "x") (.lit (.vInt 5))) (.lit (.vInt 3)))
      = id (.binOp .add (.var "x") (.lit (.vInt 8)) : Expr) ∧
    ∃ op x v, (.binOp .add (.var "x") (.lit (.vInt 8)) : Expr) = .binOp op x (.lit v) ∨
      (.binOp .add (.var "x") (.lit (.vInt 8)) : Expr) = .binOp op (.lit v) x :=
  rule3_success_calls_optimizer id
    (.binOp .add (.binOp .add (.var "x") (.lit (.vInt 5))) (.lit (.vInt 3)))
    (.binOp .add (.var "x") (.lit (.vInt 8))) (by decide)

/-- Claim C9: the only recursive call any of the three rules makes into the
surrounding optimizer's `applyRules` entry point passes a tree with
strictly fewer nodes than the rule's input tree, and each `applyRule`
invocation performs at most one such call: `AssociativeRule1` and
`AssociativeRule2` never fire at all (their rewrite attempt never
produces a call), and a successful `AssociativeRule3` attempt makes its
single call on a strictly smaller tree — so rewriting terminates by
structural induction on tree size. -/
theorem rules_recursive_call_smaller (ast t : Expr) :
    (rule3Attempt ast = .rewritten t → nodeCount t < nodeCount ast) ∧
    rule1Step ast = none ∧ rule2Step ast = none := by
  refine ⟨fun h => ?_, rule1Step_eq_none ast, rule2Step_eq_none ast⟩
  obtain ⟨_, _, _, _, hlt⟩ := rule3Attempt_rewritten_cases ast t h
  exact hlt

/-- Witness for C9, at `(x + 5) + 3` whose successful rewrite passes `x + 8`
(3 nodes) for an input of 5 nodes. -/
theorem rules_recursive_call_smaller_witness :
    nodeCount (.binOp .add (.var "x") (.lit (.vInt 8)) : Expr) <
      nodeCount (.binOp .add (.binOp .add (.var "x") (.lit (.vInt 5))) (.lit (.vInt 3)) : Expr) :=
  (rules_recursive_call_smaller
    (.binOp .add (.binOp .add (.var "x") (.lit (.vInt 5))) (.lit (.vInt 3)))
    (.binOp .add (.var "x") (.lit (.vInt 8)))).1 (by decide)

/-- Claim C5: for every input on which `AssociativeRule3`'s rewrite attempt
hits an evaluation failure (the constant fold cannot be computed — also
covering a missing table entry, whose `undefined` dereference throws) or
an extraction failure (a constant slot holds a non-integer value, e.g. a
boolean, so `ensureInt` throws), `applyRule` returns the original input
node completely unmodified; no exception escapes the rule boundary (the
attempt and the rule are total functions). -/
theorem rule3_failure_identity (f : Expr → Expr) (ast : Expr)
    (h : rule3Attempt ast = .evalFail) : applyRule3 f ast = ast := by
  unfold applyRule3; rw [h]

/-- Witness for C5: `(x + true) + 3` has a boolean in a constant slot, the
fold fails, and the tree is returned untouched. -/
theorem rule3_failure_identity_witness :
    rule3Attempt (.binOp .add (.binOp .add (.var "x") (.lit (.vBool true))) (.lit (.vInt 3)))
      = .evalFail ∧
    applyRule3 id (.binOp .add (.binOp .add (.var "x") (.lit (.vBool true))) (.lit (.vInt 3)))
      = .binOp .add (.binOp .add (.var "x") (.lit (.vBool true))) (.lit (.vInt 3)) :=
  ⟨by decide, rule3_failure_identity id _ (by decide)⟩

/-! ## Missing table entries make AssociativeRule3 a no-op -/

lemma rule3_noop_leftAssoc (f : Expr → Expr) (op op1 : BinOpKind) (x1 : Expr)
    (hx1 : isValue x1 = false) (c1 c2 : Value)
    (hlk : lookupTransform op1 op leftAssocTransforms = none) :
    applyRule3 f (.binOp op (.binOp op1 x1 (.lit c1)) (.lit c2))
      = .binOp op (.binOp op1 x1 (.lit c1)) (.lit c2) := by
  have h : rule3Attempt (.binOp op (.binOp op1 x1 (.lit c1)) (.lit c2)) = .evalFail := by
    unfold rule3Attempt
    simp [hx1, getLeftAssociativityTransform, hlk, rule3TryBranch]
  unfold applyRule3; rw [h]

lemma rule3_noop_leftCommute (f : Expr → Expr) (op op1 : BinOpKind) (x1 : Expr)
    (hx1 : isValue x1 = false) (c1 c2 : Value)
    (hlk : lookupTransform op1 op leftCommuteTransforms = none) :
    applyRule3 f (.binOp op (.binOp op1 (.lit c1) x1) (.lit c2))
      = .binOp op (.binOp op1 (.lit c1) x1) (.lit c2) := by
  have h : rule3Attempt (.binOp op (.binOp op1 (.lit c1) x1) (.lit c2)) = .evalFail := by
    unfold rule3Attempt
    simp [hx1, getLeftCommutativityTransform, hlk, rule3TryBranch]
  unfold applyRule3; rw [h]

lemma rule3_noop_rightCommute (f : Expr → Expr) (op op1 : BinOpKind) (x1 : Expr)
    (hx1 : isValue x1 = false) (c1 c2 : Value)
    (hlk : lookupTransform op op1 rightCommuteTransforms = none) :
    applyRule3 f (.binOp op (.lit c2) (.binOp op1 x1 (.lit c1)))
      = .binOp op (.lit c2) (.binOp op1 x1 (.lit c1)) := by
  have h : rule3Attempt (.binOp op (.lit c2) (.binOp op1 x1 (.lit c1))) = .evalFail := by
    unfold rule3Attempt
    simp [hx1, getRightCommutativityTransform, hlk, rule3TryBranch]
  unfold applyRule3; rw [h]

lemma rule3_noop_rightAssoc (f : Expr → Expr) (op op1 : BinOpKind) (x1 : Expr)
    (hx1 : isValue x1 = false) (c1 c2 : Value)
    (hlk : lookupTransform op op1 rightAssocTransforms = none) :
    applyRule3 f (.binOp op (.lit c2) (.binOp op1 (.lit c1) x1))
      = .binOp op (.lit c2) (.binOp op1 (.lit c1) x1) := by
  have h : rule3Attempt (.binOp op (.lit c2) (.binOp op1 (.lit c1) x1)) = .evalFail := by
    unfold rule3Attempt
    simp [hx1, getRightAssociativityTransform, hlk, rule3TryBranch]
  unfold applyRule3; rw [h]

/-- Claim C6: for every expression matching one of `AssociativeRule3`'s four
shapes whose operator pair has no entry in the transform table selected
for that topology, `applyRule` returns the input unchanged regardless of
the operand values — in particular (last two conjuncts) any right-hand
topology `c2 - (x1 op1 c1)` or `c2 - (c1 op1 x1)` with subtraction as the
outer operator, for every `op1`, since the right-hand tables have no `-`
row at all. -/
theorem rule3_missing_entry_noop (f : Expr → Expr) (op op1 : BinOpKind)
    (x1 : Expr) (hx1 : isValue x1 = false) (c1 c2 : Value) :
    (lookupTransform op1 op leftAssocTransforms = none →
      applyRule3 f (.binOp op (.binOp op1 x1 (.lit c1)) (.lit c2))
        = .binOp op (.binOp op1 x1 (.lit c1)) (.lit c2)) ∧
    (lookupTransform op1 op leftCommuteTransforms = none →
      applyRule3 f (.binOp op (.binOp op1 (.lit c1) x1) (.lit c2))
        = .binOp op (.binOp op1 (.lit c1) x1) (.lit c2)) ∧
    (lookupTransform op op1 rightCommuteTransforms = none →
      applyRule3 f (.binOp op (.lit c2) (.binOp op1 x1 (.lit c1)))
        = .binOp op (.lit c2) (.binOp op1 x1 (.lit c1))) ∧
    (lookupTransform op op1 rightAssocTransforms = none →
      applyRule3 f (.binOp op (.lit c2) (.binOp op1 (.lit c1) x1))
        = .binOp op (.lit c2) (.binOp op1 (.lit c1) x1)) ∧
    (applyRule3 f (.binOp .sub (.lit c2) (.binOp op1 x1 (.lit c1)))
        = .binOp .sub (.lit c2) (.binOp op1 x1 (.lit c1))) ∧
    (applyRule3 f (.binOp .sub (.lit c2) (.binOp op1 (.lit c1) x1))
        = .binOp .sub (.lit c2) (.binOp op1 (.lit c1) x1)) := by
  refine ⟨rule3_noop_leftAssoc f op op1 x1 hx1 c1 c2,
          rule3_noop_leftCommute f op op1 x1 hx1 c1 c2,
          rule3_noop_rightCommute f op op1 x1 hx1 c1 c2,
          rule3_noop_rightAssoc f op op1 x1 hx1 c1 c2,
          rule3_noop_rightCommute f .sub op1 x1 hx1 c1 c2 rfl,
          rule3_noop_rightAssoc f .sub op1 x1 hx1 c1 c2 rfl⟩

/-- Witness for C6: `/` has no row in any table; and the subtraction-outer
right-hand topologies are no-ops concretely. -/
theorem rule3_missing_entry_noop_witness :
    applyRule3 id (.binOp .add (.binOp .div (.var "x") (.lit (.vInt 1))) (.lit (.vInt 2)))
      = .binOp .add (.binOp .div (.var "x") (.lit (.vInt 1))) (.lit (.vInt 2)) ∧
    applyRule3 id (.binOp .sub (.lit (.vInt 2)) (.binOp .div (.var "x") (.lit (.vInt 1))))
      = .binOp .sub (.lit (.vInt 2)) (.binOp .div (.var "x") (.lit (.vInt 1))) := by
  have h := rule3_missing_entry_noop id .add .div (.var "x") (by decide)
    (.vInt 1) (.vInt 2)
  exact ⟨h.1 rfl, h.2.2.2.2.1⟩

/-! ## Relation between the two additive safety conditions -/

/-- Claim C10: for all integers `c1` and `val_`, if
`standardAdditiveWithZeroCondition c1 val_` holds then
`standardAdditiveCondition c1 val_` holds too, and the two predicates
disagree exactly on the inputs with `c1 = 0` and `val_ < 0` — the
with-zero variant is a strict strengthening of the plain additive safety
condition. -/
theorem additive_withZero_strengthening (c1 val_ : Int) :
    (standardAdditiveWithZeroCondition c1 val_ = true →
      standardAdditiveCondition c1 val_ = true) ∧
    (standardAdditiveWithZeroCondition c1 val_ ≠ standardAdditiveCondition c1 val_ ↔
      c1 = 0 ∧ val_ < 0) := by
  unfold standardAdditiveWithZeroCondition standardAdditiveCondition
  by_cases h : c1 = 0
  · subst h
    simp only [if_pos rfl]
    have hdec : (decide (0 ≤ val_) : Bool) = true ↔ 0 ≤ val_ := decide_eq_true_iff
    refine ⟨fun _ => rfl, ?_⟩
    constructor
    · intro hne
      refine ⟨by trivial, ?_⟩
      by_contra hge
      exact hne (hdec.mpr (by omega))
    · rintro ⟨-, hlt⟩ hEq
      have := hdec.mp hEq
      omega
  · simp [h]

/-- Witness for C10: the predicates agree and imply one another at `(5, 8)`,
and disagree at `(0, -1)`. -/
theorem additive_withZero_strengthening_witness :
    standardAdditiveCondition 5 8 = true ∧
    standardAdditiveWithZeroCondition 0 (-1) ≠ standardAdditiveCondition 0 (-1) :=
  ⟨(additive_withZero_strengthening 5 8).1 (by decide),
   (additive_withZero_strengthening 0 (-1)).2.mpr ⟨rfl, by decide⟩⟩

/-! ## Soundness of AssociativeRule3 (C1) -/


lemma minInt_eq : minInt = -maxInt - 1 := by decide

lemma maxInt_pos : (0:Int) < maxInt := by decide

lemma addCond_iff (c1 s : Int) :
    standardAdditiveCondition c1 s = true ↔
      c1 = 0 ∨ (0 < c1 ∧ 0 < s ∧ c1 ≤ s) ∨ (c1 < 0 ∧ s < 0 ∧ s ≤ c1) := by
  unfold standardAdditiveCondition sign abs
  split_ifs <;> simp_all <;> omega

lemma addZCond_iff (c1 s : Int) :
    standardAdditiveWithZeroCondition c1 s = true ↔
      (c1 = 0 ∧ 0 ≤ s) ∨ (0 < c1 ∧ 0 < s ∧ c1 ≤ s) ∨ (c1 < 0 ∧ s < 0 ∧ s ≤ c1) := by
  unfold standardAdditiveWithZeroCondition sign abs
  split_ifs <;> simp_all <;> omega

lemma multCond_iff (c1 s : Int) :
    standardMultiplicativeCondition c1 s = true ↔
      c1 = 0 ∨ (0 < c1 ∧ 0 < s ∧ c1 ≤ s) ∨ (c1 < 0 ∧ s < 0 ∧ s ≤ c1) ∨
        (0 < c1 ∧ s < 0 ∧ c1 < -s) ∨ (c1 < 0 ∧ 0 < s ∧ -c1 < s) := by
  unfold standardMultiplicativeCondition sign abs
  split_ifs <;> simp_all <;> omega

lemma intResult_eq_some (r : Int) (v : Value) (h : intResult r = some v) :
    v = .vInt r ∧ inRange r := by
  unfold intResult at h
  split at h
  · cases h; exact ⟨rfl, by assumption⟩
  · cases h

lemma evalBinaryOp_int_range (op : BinOpKind) (a b : Value) (n : Int)
    (h : evalBinaryOp op a b = some (.vInt n)) : inRange n := by
  cases op <;> cases a <;> cases b <;> simp only [evalBinaryOp] at h <;>
    first
      | (cases h)
      | (split at h <;>
          first
            | cases h
            | (obtain ⟨he, hr⟩ := intResult_eq_some _ _ h; cases he; exact hr))
      | (obtain ⟨he, hr⟩ := intResult_eq_some _ _ h; cases he; exact hr)

lemma eval_int_range (env : String → Value) (henv : ∀ s, validVal (env s))
    (e : Expr) (he : isValue e = false) (n : Int)
    (h : eval env e = some (.vInt n)) : inRange n := by
  cases e with
  | var s =>
    have hv := henv s
    simp only [eval, Option.some.injEq] at h
    rw [h] at hv
    exact hv
  | lit v => simp at he
  | binOp op l r =>
    simp only [eval] at h
    cases hl : eval env l with
    | none => rw [hl] at h; simp at h
    | some a =>
      rw [hl, Option.some_bind] at h
      cases hr : eval env r with
      | none => rw [hr] at h; simp at h
      | some b =>
        rw [hr, Option.some_bind] at h
        exact evalBinaryOp_int_range op a b n h

lemma bind_intResult (u w : Int) (f : Value → Option Value)
    (hpos : inRange u → f (.vInt u) = intResult w)
    (hneg : ¬ inRange u → ¬ inRange w) :
    (intResult u).bind f = intResult w := by
  by_cases hu : inRange u
  · rw [show intResult u = some (.vInt u) from if_pos hu, Option.some_bind,
      hpos hu]
  · rw [show intResult u = none from if_neg hu, Option.none_bind,
      (show intResult w = none from if_neg (hneg hu)).symm]

lemma add_trap_right (x c1 s : Int) (hx : inRange x)
    (hc : c1 = 0 ∨ (0 < c1 ∧ 0 < s ∧ c1 ≤ s) ∨ (c1 < 0 ∧ s < 0 ∧ s ≤ c1))
    (h : ¬ inRange (x + c1)) : ¬ inRange (x + s) := by
  simp only [inRange, minInt, maxInt] at *
  rcases hc with h0 | ⟨ha, hb, hab⟩ | ⟨ha, hb, hab⟩ <;> omega

lemma sub_trap_right (x c1 s : Int) (hx : inRange x)
    (hc : c1 = 0 ∨ (0 < c1 ∧ 0 < s ∧ c1 ≤ s) ∨ (c1 < 0 ∧ s < 0 ∧ s ≤ c1))
    (h : ¬ inRange (x - c1)) : ¬ inRange (x - s) := by
  simp only [inRange, minInt, maxInt] at *
  rcases hc with h0 | ⟨ha, hb, hab⟩ | ⟨ha, hb, hab⟩ <;> omega

lemma add_trap_left (x c1 s : Int) (hx : inRange x)
    (hc : c1 = 0 ∨ (0 < c1 ∧ 0 < s ∧ c1 ≤ s) ∨ (c1 < 0 ∧ s < 0 ∧ s ≤ c1))
    (h : ¬ inRange (c1 + x)) : ¬ inRange (s + x) := by
  simp only [inRange, minInt, maxInt] at *
  rcases hc with h0 | ⟨ha, hb, hab⟩ | ⟨ha, hb, hab⟩ <;> omega

lemma sub_trap_left (x c1 s : Int) (hx : inRange x)
    (hc : (c1 = 0 ∧ 0 ≤ s) ∨ (0 < c1 ∧ 0 < s ∧ c1 ≤ s) ∨ (c1 < 0 ∧ s < 0 ∧ s ≤ c1))
    (h : ¬ inRange (c1 - x)) : ¬ inRange (s - x) := by
  simp only [inRange, minInt, maxInt] at *
  rcases hc with ⟨h0, hs0⟩ | ⟨ha, hb, hab⟩ | ⟨ha, hb, hab⟩ <;> omega

lemma mul_trap (x c1 c2 s : Int) (_hx : inRange x) (_hs : inRange s)
    (hseq : s = c1 * c2)
    (hc : standardMultiplicativeCondition c1 s = true)
    (h : ¬ inRange (x * c1)) : ¬ inRange (x * s) := by
  intro hin
  by_cases h0 : c1 = 0
  · apply h
    subst h0
    rw [mul_zero]
    simp only [inRange, minInt, maxInt]
    omega
  have hcond := (multCond_iff c1 s).mp hc
  have hs0 : s ≠ 0 := by
    rcases hcond with h' | h' | h' | h' | h' <;> omega
  have hc2 : c2 ≠ 0 := by
    intro hz
    apply hs0
    rw [hseq, hz, mul_zero]
  have habs : |x * s| = |x * c1| * |c2| := by
    rw [hseq, show x * (c1 * c2) = x * c1 * c2 from (mul_assoc x c1 c2).symm, abs_mul]
  have h1le : (1:Int) ≤ |c2| := Int.one_le_abs hc2
  have hge : |x * c1| ≤ |x * s| := by
    calc |x * c1| = |x * c1| * 1 := (mul_one _).symm
      _ ≤ |x * c1| * |c2| := mul_le_mul_of_nonneg_left h1le (abs_nonneg _)
      _ = |x * s| := habs.symm
  have hub : |x * s| ≤ maxInt + 1 := by
    rw [abs_le]
    simp only [inRange, minInt, maxInt] at hin ⊢
    omega
  have hlb : maxInt + 1 ≤ |x * c1| := by
    have h1 := le_abs_self (x * c1)
    have h2 := neg_le_abs (x * c1)
    simp only [inRange, minInt, maxInt] at h ⊢
    omega
  have heq1 : |x * c1| = maxInt + 1 := le_antisymm (hge.trans hub) hlb
  have heq2 : |x * s| = maxInt + 1 := le_antisymm hub (hlb.trans hge)
  have heqc2 : |c2| = 1 := by
    have hprod : (maxInt + 1) * |c2| = (maxInt + 1) * 1 := by
      rw [mul_one, ← heq1, ← habs, heq2]
      exact heq1.symm
    refine mul_left_cancel₀ ?_ hprod
    have := maxInt_pos
    omega
  have hxc1 : x * c1 = maxInt + 1 := by
    rcases abs_cases (x * c1) with ⟨he, hnn⟩ | ⟨he, hneg⟩
    · omega
    · exfalso
      apply h
      simp only [inRange, minInt, maxInt] at *
      omega
  rcases abs_cases c2 with ⟨he2, _⟩ | ⟨he2, _⟩
  · have hc2v : c2 = 1 := by omega
    have hxs : x * s = maxInt + 1 := by
      rw [hseq, hc2v, mul_one]
      exact hxc1
    simp only [inRange, minInt, maxInt] at hin
    have := maxInt_pos
    simp only [maxInt] at *
    omega
  · have hc2v : c2 = -1 := by omega
    have hs' : s = -c1 := by
      rw [hseq, hc2v]
      ring
    rcases hcond with h' | h' | h' | h' | h' <;> omega

lemma tryBranch_success_elim (F : Value → Value → Option Value) (op1_ : BinOpKind)
    (cond : Int → Int → Bool) (c1v c2v : Value) (mk : BinOpKind → Value → Expr) (t : Expr)
    (h : rule3TryBranch
        (some ⟨fun c1 c2 => (F c1 c2).map (fun res => ⟨op1_, res⟩), intSafety cond⟩)
        c1v c2v mk = .rewritten t) :
    ∃ n1 s : Int, c1v = .vInt n1 ∧ F c1v c2v = some (.vInt s) ∧
      cond n1 s = true ∧ t = mk op1_ (.vInt s) := by
  simp only [rule3TryBranch] at h
  cases hF : F c1v c2v with
  | none => rw [hF] at h; simp at h
  | some v =>
    rw [hF] at h
    simp only [Option.map_some'] at h
    cases c1v with
    | vBool b => simp [intSafety, ensureInt] at h
    | vInt n1 =>
      cases v with
      | vBool b => simp [intSafety, ensureInt] at h
      | vInt s =>
        simp only [intSafety, ensureInt] at h
        cases hcnd : cond n1 s with
        | false => rw [hcnd] at h; simp at h
        | true =>
          rw [hcnd] at h
          simp only at h
          exact ⟨n1, s, rfl, rfl, hcnd, by simpa using h.symm⟩

lemma branch_leftAssoc_sound (env : String → Value) (henv : ∀ s, validVal (env s))
    (op op1 : BinOpKind) (X : Expr) (hX : isValue X = false) (c1v c2v : Value) (t : Expr)
    (h : rule3TryBranch (getLeftAssociativityTransform op1 op) c1v c2v
        (fun op1_ val_ => makeBinaryExpression op1_ X (makeValueExpression val_))
        = .rewritten t) :
    eval env t = eval env (.binOp op (.binOp op1 X (.lit c1v)) (.lit c2v)) := by
  cases op1 <;> try exact Rule3Outcome.noConfusion h
  case add =>
    cases op <;> try exact Rule3Outcome.noConfusion h
    case add =>
      obtain ⟨n1, s, rfl, hF, hcnd, rfl⟩ :=
        tryBranch_success_elim (fun c1 c2 => evalBinaryOp .add c1 c2) .add
          standardAdditiveCondition c1v c2v _ t h
      cases c2v with
      | vBool b => simp [evalBinaryOp] at hF
      | vInt n2 =>
        simp only [evalBinaryOp] at hF
        obtain ⟨hse, hsr⟩ := intResult_eq_some _ _ hF
        obtain rfl : s = n1 + n2 := by injection hse
        simp only [makeBinaryExpression, makeValueExpression]
        cases hx : eval env X with
        | none => simp [eval, hx]
        | some v =>
          cases v with
          | vBool b => simp [eval, hx, evalBinaryOp]
          | vInt xv =>
            have hxv : inRange xv := eval_int_range env henv X hX xv hx
            simp only [eval, hx, Option.some_bind]
            simp only [evalBinaryOp]
            refine (bind_intResult (xv + n1) (xv + (n1 + n2)) _ ?_ ?_).symm
            · intro hu
              simp only [evalBinaryOp]
              congr 1
              ring
            · intro hu
              exact add_trap_right xv n1 (n1 + n2) hxv ((addCond_iff _ _).mp hcnd) hu
    case sub =>
      obtain ⟨n1, s, rfl, hF, hcnd, rfl⟩ :=
        tryBranch_success_elim (fun c1 c2 => evalBinaryOp .sub c1 c2) .add
          standardAdditiveCondition c1v c2v _ t h
      cases c2v with
      | vBool b => simp [evalBinaryOp] at hF
      | vInt n2 =>
        simp only [evalBinaryOp] at hF
        obtain ⟨hse, hsr⟩ := intResult_eq_some _ _ hF
        obtain rfl : s = n1 - n2 := by injection hse
        simp only [makeBinaryExpression, makeValueExpression]
        cases hx : eval env X with
        | none => simp [eval, hx]
        | some v =>
          cases v with
          | vBool b => simp [eval, hx, evalBinaryOp]
          | vInt xv =>
            have hxv : inRange xv := eval_int_range env henv X hX xv hx
            simp only [eval, hx, Option.some_bind]
            simp only [evalBinaryOp]
            refine (bind_intResult (xv + n1) (xv + (n1 - n2)) _ ?_ ?_).symm
            · intro hu
              simp only [evalBinaryOp]
              congr 1
              ring
            · intro hu
              exact add_trap_right xv n1 (n1 - n2) hxv ((addCond_iff _ _).mp hcnd) hu
  case sub =>
    cases op <;> try exact Rule3Outcome.noConfusion h
    case add =>
      obtain ⟨n1, s, rfl, hF, hcnd, rfl⟩ :=
        tryBranch_success_elim (fun c1 c2 => evalBinaryOp .sub c1 c2) .sub
          standardAdditiveCondition c1v c2v _ t h
      cases c2v with
      | vBool b => simp [evalBinaryOp] at hF
      | vInt n2 =>
        simp only [evalBinaryOp] at hF
        obtain ⟨hse, hsr⟩ := intResult_eq_some _ _ hF
        obtain rfl : s = n1 - n2 := by injection hse
        simp only [makeBinaryExpression, makeValueExpression]
        cases hx : eval env X with
        | none => simp [eval, hx]
        | some v =>
          cases v with
          | vBool b => simp [eval, hx, evalBinaryOp]
          | vInt xv =>
            have hxv : inRange xv := eval_int_range env henv X hX xv hx
            simp only [eval, hx, Option.some_bind]
            simp only [evalBinaryOp]
            refine (bind_intResult (xv - n1) (xv - (n1 - n2)) _ ?_ ?_).symm
            · intro hu
              simp only [evalBinaryOp]
              congr 1
              ring
            · intro hu
              exact sub_trap_right xv n1 (n1 - n2) hxv ((addCond_iff _ _).mp hcnd) hu
    case sub =>
      obtain ⟨n1, s, rfl, hF, hcnd, rfl⟩ :=
        tryBranch_success_elim (fun c1 c2 => evalBinaryOp .add c1 c2) .sub
          standardAdditiveCondition c1v c2v _ t h
      cases c2v with
      | vBool b => simp [evalBinaryOp] at hF
      | vInt n2 =>
        simp only [evalBinaryOp] at hF
        obtain ⟨hse, hsr⟩ := intResult_eq_some _ _ hF
        obtain rfl : s = n1 + n2 := by injection hse
        simp only [makeBinaryExpression, makeValueExpression]
        cases hx : eval env X with
        | none => simp [eval, hx]
        | some v =>
          cases v with
          | vBool b => simp [eval, hx, evalBinaryOp]
          | vInt xv =>
            have hxv : inRange xv := eval_int_range env henv X hX xv hx
            simp only [eval, hx, Option.some_bind]
            simp only [evalBinaryOp]
            refine (bind_intResult (xv - n1) (xv - (n1 + n2)) _ ?_ ?_).symm
            · intro hu
              simp only [evalBinaryOp]
              congr 1
              ring
            · intro hu
              exact sub_trap_right xv n1 (n1 + n2) hxv ((addCond_iff _ _).mp hcnd) hu
  case mul =>
    cases op <;> try exact Rule3Outcome.noConfusion h
    case mul =>
      obtain ⟨n1, s, rfl, hF, hcnd, rfl⟩ :=
        tryBranch_success_elim (fun c1 c2 => evalBinaryOp .mul c1 c2) .mul
          standardMultiplicativeCondition c1v c2v _ t h
      cases c2v with
      | vBool b => simp [evalBinaryOp] at hF
      | vInt n2 =>
        simp only [evalBinaryOp] at hF
        obtain ⟨hse, hsr⟩ := intResult_eq_some _ _ hF
        obtain rfl : s = n1 * n2 := by injection hse
        simp only [makeBinaryExpression, makeValueExpression]
        cases hx : eval env X with
        | none => simp [eval, hx]
        | some v =>
          cases v with
          | vBool b => simp [eval, hx, evalBinaryOp]
          | vInt xv =>
            have hxv : inRange xv := eval_int_range env henv X hX xv hx
            simp only [eval, hx, Option.some_bind]
            simp only [evalBinaryOp]
            refine (bind_intResult (xv * n1) (xv * (n1 * n2)) _ ?_ ?_).symm
            · intro hu
              simp only [evalBinaryOp]
              congr 1
              ring
            · intro hu
              exact mul_trap xv n1 n2 (n1 * n2) hxv hsr rfl hcnd hu

lemma branch_leftCommute_sound (env : String → Value) (henv : ∀ s, validVal (env s))
    (op op1 : BinOpKind) (X : Expr) (hX : isValue X = false) (c1v c2v : Value) (t : Expr)
    (h : rule3TryBranch (getLeftCommutativityTransform op1 op) c1v c2v
        (fun op1_ val_ => makeBinaryExpression op1_ (makeValueExpression val_) X)
        = .rewritten t) :
    eval env t = eval env (.binOp op (.binOp op1 (.lit c1v) X) (.lit c2v)) := by
  cases op1 <;> try exact Rule3Outcome.noConfusion h
  case add =>
    cases op <;> try exact Rule3Outcome.noConfusion h
    case add =>
      obtain ⟨n1, s, rfl, hF, hcnd, rfl⟩ :=
        tryBranch_success_elim (fun c1 c2 => evalBinaryOp .add c1 c2) .add
          standardAdditiveCondition c1v c2v _ t h
      cases c2v with
      | vBool b => simp [evalBinaryOp] at hF
      | vInt n2 =>
        simp only [evalBinaryOp] at hF
        obtain ⟨hse, hsr⟩ := intResult_eq_some _ _ hF
        obtain rfl : s = n1 + n2 := by injection hse
        simp only [makeBinaryExpression, makeValueExpression]
        cases hx : eval env X with
        | none => simp [eval, hx]
        | some v =>
          cases v with
          | vBool b => simp [eval, hx, evalBinaryOp]
          | vInt xv =>
            have hxv : inRange xv := eval_int_range env henv X hX xv hx
            simp only [eval, hx, Option.some_bind]
            simp only [evalBinaryOp]
            refine (bind_intResult (n1 + xv) ((n1 + n2) + xv) _ ?_ ?_).symm
            · intro hu
              simp only [evalBinaryOp]
              congr 1
              ring
            · intro hu
              exact add_trap_left xv n1 (n1 + n2) hxv ((addCond_iff _ _).mp hcnd) hu
    case sub =>
      obtain ⟨n1, s, rfl, hF, hcnd, rfl⟩ :=
        tryBranch_success_elim (fun c1 c2 => evalBinaryOp .sub c1 c2) .add
          standardAdditiveCondition c1v c2v _ t h
      cases c2v with
      | vBool b => simp [evalBinaryOp] at hF
      | vInt n2 =>
        simp only [evalBinaryOp] at hF
        obtain ⟨hse, hsr⟩ := intResult_eq_some _ _ hF
        obtain rfl : s = n1 - n2 := by injection hse
        simp only [makeBinaryExpression, makeValueExpression]
        cases hx : eval env X with
        | none => simp [eval, hx]
        | some v =>
          cases v with
          | vBool b => simp [eval, hx, evalBinaryOp]
          | vInt xv =>
            have hxv : inRange xv := eval_int_range env henv X hX xv hx
            simp only [eval, hx, Option.some_bind]
            simp only [evalBinaryOp]
            refine (bind_intResult (n1 + xv) ((n1 - n2) + xv) _ ?_ ?_).symm
            · intro hu
              simp only [evalBinaryOp]
              congr 1
              ring
            · intro hu
              exact add_trap_left xv n1 (n1 - n2) hxv ((addCond_iff _ _).mp hcnd) hu
  case sub =>
    cases op <;> try exact Rule3Outcome.noConfusion h
    case add =>
      obtain ⟨n1, s, rfl, hF, hcnd, rfl⟩ :=
        tryBranch_success_elim (fun c1 c2 => evalBinaryOp .add c1 c2) .sub
          standardAdditiveWithZeroCondition c1v c2v _ t h
      cases c2v with
      | vBool b => simp [evalBinaryOp] at hF
      | vInt n2 =>
        simp only [evalBinaryOp] at hF
        obtain ⟨hse, hsr⟩ := intResult_eq_some _ _ hF
        obtain rfl : s = n1 + n2 := by injection hse
        simp only [makeBinaryExpression, makeValueExpression]
        cases hx : eval env X with
        | none => simp [eval, hx]
        | some v =>
          cases v with
          | vBool b => simp [eval, hx, evalBinaryOp]
          | vInt xv =>
            have hxv : inRange xv := eval_int_range env henv X hX xv hx
            simp only [eval, hx, Option.some_bind]
            simp only [evalBinaryOp]
            refine (bind_intResult (n1 - xv) ((n1 + n2) - xv) _ ?_ ?_).symm
            · intro hu
              simp only [evalBinaryOp]
              congr 1
              ring
            · intro hu
              exact sub_trap_left xv n1 (n1 + n2) hxv ((addZCond_iff _ _).mp hcnd) hu
    case sub =>
      obtain ⟨n1, s, rfl, hF, hcnd, rfl⟩ :=
        tryBranch_success_elim (fun c1 c2 => evalBinaryOp .sub c1 c2) .sub
          standardAdditiveWithZeroCondition c1v c2v _ t h
      cases c2v with
      | vBool b => simp [evalBinaryOp] at hF
      | vInt n2 =>
        simp only [evalBinaryOp] at hF
        obtain ⟨hse, hsr⟩ := intResult_eq_some _ _ hF
        obtain rfl : s = n1 - n2 := by injection hse
        simp only [makeBinaryExpression, makeValueExpression]
        cases hx : eval env X with
        | none => simp [eval, hx]
        | some v =>
          cases v with
          | vBool b => simp [eval, hx, evalBinaryOp]
          | vInt xv =>
            have hxv : inRange xv := eval_int_range env henv X hX xv hx
            simp only [eval, hx, Option.some_bind]
            simp only [evalBinaryOp]
            refine (bind_intResult (n1 - xv) ((n1 - n2) - xv) _ ?_ ?_).symm
            · intro hu
              simp only [evalBinaryOp]
              congr 1
              ring
            · intro hu
              exact sub_trap_left xv n1 (n1 - n2) hxv ((addZCond_iff _ _).mp hcnd) hu
  case mul =>
    cases op <;> try exact Rule3Outcome.noConfusion h
    case mul =>
      obtain ⟨n1, s, rfl, hF, hcnd, rfl⟩ :=
        tryBranch_success_elim (fun c1 c2 => evalBinaryOp .mul c1 c2) .mul
          standardMultiplicativeCondition c1v c2v _ t h
      cases c2v with
      | vBool b => simp [evalBinaryOp] at hF
      | vInt n2 =>
        simp only [evalBinaryOp] at hF
        obtain ⟨hse, hsr⟩ := intResult_eq_some _ _ hF
        obtain rfl : s = n1 * n2 := by injection hse
        simp only [makeBinaryExpression, makeValueExpression]
        cases hx : eval env X with
        | none => simp [eval, hx]
        | some v =>
          cases v with
          | vBool b => simp [eval, hx, evalBinaryOp]
          | vInt xv =>
            have hxv : inRange xv := eval_int_range env henv X hX xv hx
            simp only [eval, hx, Option.some_bind]
            simp only [evalBinaryOp]
            refine (bind_intResult (n1 * xv) ((n1 * n2) * xv) _ ?_ ?_).symm
            · intro hu
              simp only [evalBinaryOp]
              congr 1
              ring
            · intro hu hw
              exact mul_trap xv n1 n2 (n1 * n2) hxv hsr rfl hcnd
                (fun hk => hu (by rwa [mul_comm] at hk))
                (by rwa [mul_comm] at hw)

lemma branch_rightCommute_sound (env : String → Value) (henv : ∀ s, validVal (env s))
    (op op1 : BinOpKind) (X : Expr) (hX : isValue X = false) (c1v c2v : Value) (t : Expr)
    (h : rule3TryBranch (getRightCommutativityTransform op op1) c1v c2v
        (fun op1_ val_ => makeBinaryExpression op1_ X (makeValueExpression val_))
        = .rewritten t) :
    eval env t = eval env (.binOp op (.lit c2v) (.binOp op1 X (.lit c1v))) := by
  cases op <;> try exact Rule3Outcome.noConfusion h
  case add =>
    cases op1 <;> try exact Rule3Outcome.noConfusion h
    case add =>
      obtain ⟨n1, s, rfl, hF, hcnd, rfl⟩ :=
        tryBranch_success_elim (fun c1 c2 => evalBinaryOp .add c2 c1) .add
          standardAdditiveCondition c1v c2v _ t h
      cases c2v with
      | vBool b => simp [evalBinaryOp] at hF
      | vInt n2 =>
        simp only [evalBinaryOp] at hF
        obtain ⟨hse, hsr⟩ := intResult_eq_some _ _ hF
        obtain rfl : s = n2 + n1 := by injection hse
        simp only [makeBinaryExpression, makeValueExpression]
        cases hx : eval env X with
        | none => simp [eval, hx]
        | some v =>
          cases v with
          | vBool b => simp [eval, hx, evalBinaryOp]
          | vInt xv =>
            have hxv : inRange xv := eval_int_range env henv X hX xv hx
            simp only [eval, hx, Option.some_bind]
            simp only [evalBinaryOp]
            refine (bind_intResult (xv + n1) (xv + (n2 + n1)) _ ?_ ?_).symm
            · intro hu
              simp only [evalBinaryOp]
              congr 1
              ring
            · intro hu
              exact add_trap_right xv n1 (n2 + n1) hxv ((addCond_iff _ _).mp hcnd) hu
    case sub =>
      obtain ⟨n1, s, rfl, hF, hcnd, rfl⟩ :=
        tryBranch_success_elim (fun c1 c2 => evalBinaryOp .sub c1 c2) .sub
          standardAdditiveCondition c1v c2v _ t h
      cases c2v with
      | vBool b => simp [evalBinaryOp] at hF
      | vInt n2 =>
        simp only [evalBinaryOp] at hF
        obtain ⟨hse, hsr⟩ := intResult_eq_some _ _ hF
        obtain rfl : s = n1 - n2 := by injection hse
        simp only [makeBinaryExpression, makeValueExpression]
        cases hx : eval env X with
        | none => simp [eval, hx]
        | some v =>
          cases v with
          | vBool b => simp [eval, hx, evalBinaryOp]
          | vInt xv =>
            have hxv : inRange xv := eval_int_range env henv X hX xv hx
            simp only [eval, hx, Option.some_bind]
            simp only [evalBinaryOp]
            refine (bind_intResult (xv - n1) (xv - (n1 - n2)) _ ?_ ?_).symm
            · intro hu
              simp only [evalBinaryOp]
              congr 1
              ring
            · intro hu
              exact sub_trap_right xv n1 (n1 - n2) hxv ((addCond_iff _ _).mp hcnd) hu
  case mul =>
    cases op1 <;> try exact Rule3Outcome.noConfusion h
    case mul =>
      obtain ⟨n1, s, rfl, hF, hcnd, rfl⟩ :=
        tryBranch_success_elim (fun c1 c2 => evalBinaryOp .mul c2 c1) .mul
          standardMultiplicativeCondition c1v c2v _ t h
      cases c2v with
      | vBool b => simp [evalBinaryOp] at hF
      | vInt n2 =>
        simp only [evalBinaryOp] at hF
        obtain ⟨hse, hsr⟩ := intResult_eq_some _ _ hF
        obtain rfl : s = n2 * n1 := by injection hse
        simp only [makeBinaryExpression, makeValueExpression]
        cases hx : eval env X with
        | none => simp [eval, hx]
        | some v =>
          cases v with
          | vBool b => simp [eval, hx, evalBinaryOp]
          | vInt xv =>
            have hxv : inRange xv := eval_int_range env henv X hX xv hx
            simp only [eval, hx, Option.some_bind]
            simp only [evalBinaryOp]
            refine (bind_intResult (xv * n1) (xv * (n2 * n1)) _ ?_ ?_).symm
            · intro hu
              simp only [evalBinaryOp]
              congr 1
              ring
            · intro hu
              exact mul_trap xv n1 n2 (n2 * n1) hxv hsr (mul_comm n2 n1) hcnd hu

lemma branch_rightAssoc_sound (env : String → Value) (henv : ∀ s, validVal (env s))
    (op op1 : BinOpKind) (X : Expr) (hX : isValue X = false) (c1v c2v : Value) (t : Expr)
    (h : rule3TryBranch (getRightAssociativityTransform op op1) c1v c2v
        (fun op1_ val_ => makeBinaryExpression op1_ (makeValueExpression val_) X)
        = .rewritten t) :
    eval env t = eval env (.binOp op (.lit c2v) (.binOp op1 (.lit c1v) X)) := by
  cases op <;> try exact Rule3Outcome.noConfusion h
  case add =>
    cases op1 <;> try exact Rule3Outcome.noConfusion h
    case add =>
      obtain ⟨n1, s, rfl, hF, hcnd, rfl⟩ :=
        tryBranch_success_elim (fun c1 c2 => evalBinaryOp .add c2 c1) .add
          standardAdditiveCondition c1v c2v _ t h
      cases c2v with
      | vBool b => simp [evalBinaryOp] at hF
      | vInt n2 =>
        simp only [evalBinaryOp] at hF
        obtain ⟨hse, hsr⟩ := intResult_eq_some _ _ hF
        obtain rfl : s = n2 + n1 := by injection hse
        simp only [makeBinaryExpression, makeValueExpression]
        cases hx : eval env X with
        | none => simp [eval, hx]
        | some v =>
          cases v with
          | vBool b => simp [eval, hx, evalBinaryOp]
          | vInt xv =>
            have hxv : inRange xv := eval_int_range env henv X hX xv hx
            simp only [eval, hx, Option.some_bind]
            simp only [evalBinaryOp]
            refine (bind_intResult (n1 + xv) ((n2 + n1) + xv) _ ?_ ?_).symm
            · intro hu
              simp only [evalBinaryOp]
              congr 1
              ring
            · intro hu
              exact add_trap_left xv n1 (n2 + n1) hxv ((addCond_iff _ _).mp hcnd) hu
    case sub =>
      obtain ⟨n1, s, rfl, hF, hcnd, rfl⟩ :=
        tryBranch_success_elim (fun c1 c2 => evalBinaryOp .add c2 c1) .sub
          standardAdditiveWithZeroCondition c1v c2v _ t h
      cases c2v with
      | vBool b => simp [evalBinaryOp] at hF
      | vInt n2 =>
        simp only [evalBinaryOp] at hF
        obtain ⟨hse, hsr⟩ := intResult_eq_some _ _ hF
        obtain rfl : s = n2 + n1 := by injection hse
        simp only [makeBinaryExpression, makeValueExpression]
        cases hx : eval env X with
        | none => simp [eval, hx]
        | some v =>
          cases v with
          | vBool b => simp [eval, hx, evalBinaryOp]
          | vInt xv =>
            have hxv : inRange xv := eval_int_range env henv X hX xv hx
            simp only [eval, hx, Option.some_bind]
            simp only [evalBinaryOp]
            refine (bind_intResult (n1 - xv) ((n2 + n1) - xv) _ ?_ ?_).symm
            · intro hu
              simp only [evalBinaryOp]
              congr 1
              ring
            · intro hu
              exact sub_trap_left xv n1 (n2 + n1) hxv ((addZCond_iff _ _).mp hcnd) hu
  case mul =>
    cases op1 <;> try exact Rule3Outcome.noConfusion h
    case mul =>
      obtain ⟨n1, s, rfl, hF, hcnd, rfl⟩ :=
        tryBranch_success_elim (fun c1 c2 => evalBinaryOp .mul c2 c1) .mul
          standardMultiplicativeCondition c1v c2v _ t h
      cases c2v with
      | vBool b => simp [evalBinaryOp] at hF
      | vInt n2 =>
        simp only [evalBinaryOp] at hF
        obtain ⟨hse, hsr⟩ := intResult_eq_some _ _ hF
        obtain rfl : s = n2 * n1 := by injection hse
        simp only [makeBinaryExpression, makeValueExpression]
        cases hx : eval env X with
        | none => simp [eval, hx]
        | some v =>
          cases v with
          | vBool b => simp [eval, hx, evalBinaryOp]
          | vInt xv =>
            have hxv : inRange xv := eval_int_range env henv X hX xv hx
            simp only [eval, hx, Option.some_bind]
            simp only [evalBinaryOp]
            refine (bind_intResult (n1 * xv) ((n2 * n1) * xv) _ ?_ ?_).symm
            · intro hu
              simp only [evalBinaryOp]
              congr 1
              ring
            · intro hu hw
              exact mul_trap xv n1 n2 (n2 * n1) hxv hsr (mul_comm n2 n1) hcnd
                (fun hk => hu (by rwa [mul_comm] at hk))
                (by rwa [mul_comm] at hw)

lemma rule3Attempt_rewritten_eval (env : String → Value) (henv : ∀ s, validVal (env s))
    (ast t : Expr) (h : rule3Attempt ast = .rewritten t) :
    eval env t = eval env ast := by
  unfold rule3Attempt at h
  split at h
  case isFalse => simp at h
  case isTrue hbin =>
    obtain ⟨o, a, b, rfl⟩ := bon_struct _ hbin
    split at h
    case isTrue hsh =>
      simp only [Bool.and_eq_true] at hsh
      obtain ⟨o1, x1, v1, hleq, hx1⟩ := nvv_struct _ (by simpa using hsh.1)
      obtain ⟨v2, hreq⟩ := isValue_struct _ (by simpa using hsh.2)
      subst hleq hreq
      simp only [bop_binOp, bleft_binOp, bright_binOp, extractValue_lit] at h
      exact branch_leftAssoc_sound env henv o o1 x1 hx1 v1 v2 t h
    case isFalse =>
      split at h
      case isTrue hsh =>
        simp only [Bool.and_eq_true] at hsh
        obtain ⟨o1, v1, x1, hleq, hx1⟩ := vnv_struct _ (by simpa using hsh.1)
        obtain ⟨v2, hreq⟩ := isValue_struct _ (by simpa using hsh.2)
        subst hleq hreq
        simp only [bop_binOp, bleft_binOp, bright_binOp, extractValue_lit] at h
        exact branch_leftCommute_sound env henv o o1 x1 hx1 v1 v2 t h
      case isFalse =>
        split at h
        case isTrue hsh =>
          simp only [Bool.and_eq_true] at hsh
          obtain ⟨v2, hleq⟩ := isValue_struct _ (by simpa using hsh.1)
          obtain ⟨o1, x1, v1, hreq, hx1⟩ := nvv_struct _ (by simpa using hsh.2)
          subst hleq hreq
          simp only [bop_binOp, bleft_binOp, bright_binOp, extractValue_lit] at h
          exact branch_rightCommute_sound env henv o o1 x1 hx1 v1 v2 t h
        case isFalse =>
          split at h
          case isTrue hsh =>
            simp only [Bool.and_eq_true] at hsh
            obtain ⟨v2, hleq⟩ := isValue_struct _ (by simpa using hsh.1)
            obtain ⟨o1, v1, x1, hreq, hx1⟩ := vnv_struct _ (by simpa using hsh.2)
            subst hleq hreq
            simp only [bop_binOp, bleft_binOp, bright_binOp, extractValue_lit] at h
            exact branch_rightAssoc_sound env henv o o1 x1 hx1 v1 v2 t h
          case isFalse => simp at h

/-- Claim C1 (soundness, primary property): for every expression tree, every
environment binding its free variables to values of the domain language
(integers within the fixed-width range), and any re-optimization callback
that preserves semantics, the result of `AssociativeRule3.applyRule`
evaluates under checked-overflow integer semantics (`none` = trap) to
exactly the same outcome as the input tree in that environment: same
value when the input does not trap, and a trap exactly when the input
traps.  In particular the result is either structurally identical to the
input (non-matching, failing or unsafe attempts) or semantically equal
to it. -/
theorem rule3_sound (f : Expr → Expr) (env : String → Value)
    (hf : ∀ u, eval env (f u) = eval env u)
    (henv : ∀ s, validVal (env s)) (ast : Expr) :
    eval env (applyRule3 f ast) = eval env ast := by
  unfold applyRule3
  cases hA : rule3Attempt ast with
  | noMatch => rfl
  | evalFail => rfl
  | rejected => rfl
  | rewritten t =>
    rw [hf t]
    exact rule3Attempt_rewritten_eval env henv ast t hA

/-- Witness for C1: the identity callback preserves semantics, the all-zero
environment is valid, and soundness holds concretely on `(x + 5) + 3`. -/
theorem rule3_sound_witness :
    validVal (Value.vInt 0) ∧
    eval (fun _ => .vInt 0)
        (applyRule3 id (.binOp .add (.binOp .add (.var "x") (.lit (.vInt 5))) (.lit (.vInt 3))))
      = eval (fun _ => .vInt 0)
        (.binOp .add (.binOp .add (.var "x") (.lit (.vInt 5))) (.lit (.vInt 3))) :=
  ⟨by decide, rule3_sound id (fun _ => .vInt 0) (fun _ => rfl)
    (fun _ => (by decide : validVal (.vInt 0))) _⟩


end Assoc
